import Mathlib

/-!
Shallow embedding of the five-card poker-hand classifier from
`src/task/11-katas-2-tasks.js` (the function `getPokerHandRank` and the
`PokerRank` constant table), together with theorems checking the
natural-language specification against it.

A card is modelled exactly as in the source: a string token whose trailing
character is the suit glyph and whose leading characters are the rank token
(`card.slice(0, -1)` / `card.slice(-1)` in the source become `dropRight 1` /
`takeRight 1`; every glyph involved is a single UTF-16 code unit, so the
JavaScript slicing and the character-based Lean slicing agree).

The source's inner predicates (`isFlush`, `isStraight`, ...) are closures
reading the arrays `rankArray` / `suitArray`; they are embedded as functions
of those arrays, applied to the arrays of the hand.
-/

namespace Poker

/-- The canonical rank table, line 82 of the source. -/
def ranks : List String :=
  ["2", "3", "4", "5", "6", "7", "8", "9", "10", "J", "Q", "K", "A"]

/-- `const getRank = (card) => card.slice(0, -1)` (line 84). -/
def getRank (card : String) : String := card.dropRight 1

/-- `const getSuit = (card) => card.slice(-1)` (line 85). -/
def getSuit (card : String) : String := card.takeRight 1

/-- The sorted hand (lines 87-97): for each rank in canonical ascending
order, push every card of the hand having that rank. -/
def sortedHand (hand : List String) : List String :=
  ranks.flatMap fun r => hand.filter fun c => getRank c == r

/-- `rankArray` (lines 99-102): ranks of the sorted hand. -/
def rankArray (hand : List String) : List String :=
  (sortedHand hand).map getRank

/-- `suitArray` (lines 99-102): suits of the sorted hand. -/
def suitArray (hand : List String) : List String :=
  (sortedHand hand).map getSuit

/-- The multiplicity maps of lines 104-110 are JavaScript objects built by
`reduce`; the value stored at a key is the number of occurrences of that key
in the underlying array, i.e. `List.count`. -/
def countVal (arr : List String) (key : String) : Nat := arr.count key

/-- `Object.keys` of the multiplicity map built from `arr`: the distinct
elements of `arr`. -/
def mapKeys (arr : List String) : List String := arr.dedup

/-- Body of `isFlush` (lines 112-114) as a function of the suit array:
`!!Object.keys(countSuites).find(key => countSuites[key] === 5)`. -/
def flushOnSuits (sa : List String) : Bool :=
  ((mapKeys sa).find? fun key => countVal sa key == 5).isSome

/-- `isFlush` of the source, applied to the hand's suit array. -/
def isFlush (hand : List String) : Bool := flushOnSuits (suitArray hand)

/-- Body of `isStraight` (lines 116-122) as a function of the rank array.
`ranks.indexOf(rankArray[0])` is `-1` in JavaScript when `rankArray` is
empty, making `ranks.slice(index, index + 5)` empty; `List.indexOf` returns
`13` there and `(ranks.drop 13).take 5` is empty as well, so the two
embeddings agree on every hand. -/
def straightOnRanks (ra : List String) : Bool :=
  let index := ranks.indexOf (ra.headD "")
  let ref := String.join ((ranks.drop index).take 5)
  let sect := String.join ra
  sect == "AKQJ10" || sect == "2345A" || sect == ref

/-- `isStraight` of the source, applied to the hand's rank array. -/
def isStraight (hand : List String) : Bool := straightOnRanks (rankArray hand)

/-- Body of `isFourOfKind` (lines 124-126): number of keys of the rank map
whose count is 4 (the source uses the number truthily). -/
def fourOnRanks (ra : List String) : Nat :=
  ((mapKeys ra).filter fun key => countVal ra key == 4).length

/-- `isFourOfKind` of the source, applied to the hand's rank array. -/
def isFourOfKind (hand : List String) : Nat := fourOnRanks (rankArray hand)

/-- Body of `isThreeOfKind` (lines 128-130). -/
def threeOnRanks (ra : List String) : Nat :=
  ((mapKeys ra).filter fun key => countVal ra key == 3).length

/-- `isThreeOfKind` of the source, applied to the hand's rank array. -/
def isThreeOfKind (hand : List String) : Nat := threeOnRanks (rankArray hand)

/-- Body of `isPairs` (lines 132-134). -/
def pairsOnRanks (ra : List String) : Nat :=
  ((mapKeys ra).filter fun key => countVal ra key == 2).length

/-- `isPairs` of the source, applied to the hand's rank array. -/
def isPairs (hand : List String) : Nat := pairsOnRanks (rankArray hand)

-- The `PokerRank` constant table (lines 66-76).
namespace PokerRank

def StraightFlush : Nat := 8
def FourOfKind : Nat := 7
def FullHouse : Nat := 6
def Flush : Nat := 5
def Straight : Nat := 4
def ThreeOfKind : Nat := 3
def TwoPairs : Nat := 2
def OnePair : Nat := 1
def HighCard : Nat := 0

end PokerRank

/-- `getPokerHandRank` (lines 136-169): the if-chain of the source, with
JavaScript truthiness of the numeric tests made explicit (a number is
truthy iff it differs from 0). -/
def getPokerHandRank (hand : List String) : Nat :=
  if isStraight hand && isFlush hand then PokerRank.StraightFlush
  else if isFourOfKind hand != 0 then PokerRank.FourOfKind
  else if (isThreeOfKind hand != 0) && (isPairs hand == 1) then PokerRank.FullHouse
  else if isFlush hand then PokerRank.Flush
  else if isStraight hand then PokerRank.Straight
  else if isThreeOfKind hand != 0 then PokerRank.ThreeOfKind
  else if isPairs hand == 2 then PokerRank.TwoPairs
  else if isPairs hand == 1 then PokerRank.OnePair
  else PokerRank.HighCard

/-- The four canonical suit glyphs of the specification (§3); the source
itself never inspects suit glyphs beyond counting them. -/
def suits : List String := ["♠", "♥", "♦", "♣"]

/-- A structurally valid hand: five cards, each card's rank token one of the
13 canonical ranks and its suit glyph one of the 4 canonical suits. -/
def validHand (hand : List String) : Prop :=
  hand.length = 5 ∧ ∀ c ∈ hand, getRank c ∈ ranks ∧ getSuit c ∈ suits

instance validHand.instDecidable (hand : List String) :
    Decidable (validHand hand) := by
  unfold validHand
  infer_instance

/-- The specification's ordered list of category tests (§4.2 step 7): each
entry pairs a predicate with the category it selects, in strict precedence
order, `HighCard` being the fallback. -/
def categoryChecks (hand : List String) : List (Bool × Nat) :=
  [ (isStraight hand && isFlush hand, PokerRank.StraightFlush),
    (isFourOfKind hand != 0, PokerRank.FourOfKind),
    ((isThreeOfKind hand != 0) && (isPairs hand == 1), PokerRank.FullHouse),
    (isFlush hand, PokerRank.Flush),
    (isStraight hand, PokerRank.Straight),
    (isThreeOfKind hand != 0, PokerRank.ThreeOfKind),
    (isPairs hand == 2, PokerRank.TwoPairs),
    (isPairs hand == 1, PokerRank.OnePair) ]

/-- First-match-wins evaluation of an ordered list of category tests, the
fallback being `HighCard`. -/
def firstMatch : List (Bool × Nat) → Nat
  | [] => PokerRank.HighCard
  | (b, v) :: rest => if b then v else firstMatch rest

/-- The variant of `isStraight` with the dead `'AKQJ10'` disjunct removed,
compared against the original for the refinement claim. -/
def straightOnRanksTrimmed (ra : List String) : Bool :=
  let index := ranks.indexOf (ra.headD "")
  let ref := String.join ((ranks.drop index).take 5)
  let sect := String.join ra
  sect == "2345A" || sect == ref

/-- `isStraight` with the dead disjunct removed. -/
def isStraightTrimmed (hand : List String) : Bool :=
  straightOnRanksTrimmed (rankArray hand)

/-- The position of a rank token in the canonical table. -/
def idxVal (r : String) : Nat := ranks.indexOf r

/-- The sorted hand's rank indices ("the five canonical rank indices" of the
specification). -/
def idxList (hand : List String) : List Nat := (rankArray hand).map idxVal

/-- The rank token sitting at a canonical index. -/
def rankOfIdx (i : Nat) : String := ranks.getD i ""

/-- The parser's error kind (specification §6/§7). -/
inductive CardError where
  | MalformedCardError : CardError
deriving DecidableEq

/-- Modelled from the spec: the repository's source has no separate parser
function (`getPokerHandRank` consumes raw tokens directly and silently drops
tokens with unknown ranks), so `parseCard` follows §4.1/§6 of the
specification: split the trailing suit glyph from the leading rank token,
map the rank token to its canonical rank index, pair it with the suit
glyph, and fail with `MalformedCardError` when the rank or suit cannot be
mapped to a canonical symbol. -/
def parseCard (tok : String) : Except CardError (Nat × String) :=
  if getRank tok ∈ ranks ∧ getSuit tok ∈ suits then
    Except.ok (ranks.indexOf (getRank tok), getSuit tok)
  else Except.error CardError.MalformedCardError

/-- Modelled from the spec: `parseHand` (§6) parses each of the card tokens
in order, failing with the first `MalformedCardError`. -/
def parseHand (toks : List String) : Except CardError (List (Nat × String)) :=
  toks.mapM parseCard

end Poker

namespace Poker

lemma ranks_nodup : ranks.Nodup := by decide

lemma map_filter_eq_replicate (f : String → String) (r : String) (l : List String) :
    (l.filter fun c => f c == r).map f
      = List.replicate (l.countP fun c => f c == r) r := by
  induction l with
  | nil => rfl
  | cons c l ih =>
    rw [List.filter_cons, List.countP_cons]
    by_cases h : f c == r
    · have hc : f c = r := by simpa using h
      simp [h, List.replicate_succ, ih, hc, List.replicate_add]
    · simp [h, ih]

lemma rankArray_eq_flatMap (hand : List String) :
    rankArray hand
      = ranks.flatMap fun r =>
          List.replicate (hand.countP fun c => getRank c == r) r := by
  unfold rankArray sortedHand
  rw [List.map_flatMap]
  exact congrArg _ (funext fun r => map_filter_eq_replicate getRank r hand)

lemma mem_rankArray_ranks {hand : List String} {x : String}
    (hx : x ∈ rankArray hand) : x ∈ ranks := by
  rw [rankArray_eq_flatMap] at hx
  rcases List.mem_flatMap.mp hx with ⟨r, hr, hxr⟩
  rw [List.eq_of_mem_replicate hxr]; exact hr

lemma count_flatMap_filter (hand ks : List String) (hk : ks.Nodup) (a : String) :
    (ks.flatMap fun r => hand.filter fun c => getRank c == r).count a
      = if getRank a ∈ ks then hand.count a else 0 := by
  induction ks with
  | nil => simp
  | cons k ks ih =>
    rw [List.flatMap_cons, List.count_append]
    rcases List.nodup_cons.mp hk with ⟨hknot, hknd⟩
    by_cases hak : getRank a = k
    · have h1 : (hand.filter fun c => getRank c == k).count a = hand.count a := by
        apply List.count_filter
        simp [hak]
      have h2 : getRank a ∉ ks := hak ▸ hknot
      rw [h1, ih hknd, if_neg h2]
      simp [hak]
    · have h1 : (hand.filter fun c => getRank c == k).count a = 0 := by
        rw [List.count_eq_zero]
        intro hmem
        exact hak (by simpa using (List.mem_filter.mp hmem).2)
      rw [h1, ih hknd]
      simp [List.mem_cons, hak]

lemma sortedHand_perm (hand : List String)
    (hv : ∀ c ∈ hand, getRank c ∈ ranks) : (sortedHand hand).Perm hand := by
  rw [List.perm_iff_count]
  intro a
  unfold sortedHand
  rw [count_flatMap_filter hand ranks ranks_nodup a]
  by_cases ha : a ∈ hand
  · rw [if_pos (hv a ha)]
  · rw [List.count_eq_zero.mpr ha]
    split <;> rfl

lemma length_rankArray (hand : List String)
    (hv : ∀ c ∈ hand, getRank c ∈ ranks) :
    (rankArray hand).length = hand.length := by
  unfold rankArray
  rw [List.length_map]
  exact (sortedHand_perm hand hv).length_eq

lemma length_suitArray (hand : List String)
    (hv : ∀ c ∈ hand, getRank c ∈ ranks) :
    (suitArray hand).length = hand.length := by
  unfold suitArray
  rw [List.length_map]
  exact (sortedHand_perm hand hv).length_eq

lemma ranks_pairwise_idx :
    ranks.Pairwise (fun r₁ r₂ => idxVal r₁ ≤ idxVal r₂) := by decide

lemma idxList_pairwise (hand : List String) :
    (idxList hand).Pairwise (· ≤ ·) := by
  unfold idxList
  rw [List.pairwise_map, rankArray_eq_flatMap, List.flatMap_def,
    List.pairwise_flatten]
  constructor
  · intro l hl
    rcases List.mem_map.mp hl with ⟨r, _, rfl⟩
    rw [List.pairwise_replicate]
    exact Or.inr le_rfl
  · rw [List.pairwise_map]
    refine ranks_pairwise_idx.imp ?_
    intro r₁ r₂ h x hx y hy
    rw [List.eq_of_mem_replicate hx, List.eq_of_mem_replicate hy]
    exact h

lemma idx_roundtrip {x : String} (hx : x ∈ ranks) : rankOfIdx (idxVal x) = x := by
  unfold rankOfIdx idxVal
  rw [List.getD_eq_getElem ranks "" (List.indexOf_lt_length.mpr hx)]
  exact List.getElem_indexOf _

lemma idxVal_lt {x : String} (hx : x ∈ ranks) : idxVal x < 13 :=
  List.indexOf_lt_length.mpr hx

lemma rankArray_eq_map_idxList (hand : List String) :
    rankArray hand = (idxList hand).map rankOfIdx := by
  unfold idxList
  rw [List.map_map]
  conv_lhs => rw [← List.map_id (rankArray hand)]
  apply List.map_congr_left
  intro x hx
  exact (idx_roundtrip (mem_rankArray_ranks hx)).symm

end Poker

namespace Poker

lemma exists_five {α : Type} {l : List α} (h : l.length = 5) :
    ∃ a b c d e, l = [a, b, c, d, e] := by
  rcases l with _ | ⟨a, l⟩; · simp at h
  rcases l with _ | ⟨b, l⟩; · simp at h
  rcases l with _ | ⟨c, l⟩; · simp at h
  rcases l with _ | ⟨d, l⟩; · simp at h
  rcases l with _ | ⟨e, l⟩; · simp at h
  rcases l with _ | ⟨f, l⟩
  · exact ⟨a, b, c, d, e, rfl⟩
  · simp only [List.length_cons] at h; omega

lemma data_foldl_append (l : List String) (acc : String) :
    (l.foldl (fun r s => r ++ s) acc).data
      = acc.data ++ (l.map String.data).flatten := by
  induction l generalizing acc with
  | nil => simp
  | cons s l ih =>
    rw [List.foldl_cons, ih, List.map_cons, List.flatten_cons,
      String.data_append, List.append_assoc]

lemma data_join (l : List String) :
    (String.join l).data = (l.map String.data).flatten := by
  unfold String.join
  rw [data_foldl_append]
  rfl

/-- Every canonical rank token is either the two-character `"10"` or a
single character other than `'1'`: the rank code is uniquely decodable. -/
lemma rankData_cases {w : String} (hw : w ∈ ranks) :
    w.data = ['1', '0'] ∨ ∃ ch, w.data = [ch] ∧ ch ≠ '1' := by
  fin_cases hw <;> simp

lemma join_data_inj : ∀ (xs : List (List Char)) (ys : List (List Char)),
    (∀ w ∈ xs, w = ['1', '0'] ∨ ∃ ch, w = [ch] ∧ ch ≠ '1') →
    (∀ w ∈ ys, w = ['1', '0'] ∨ ∃ ch, w = [ch] ∧ ch ≠ '1') →
    xs.flatten = ys.flatten → xs = ys := by
  intro xs
  induction xs with
  | nil =>
    intro ys _ hys hj
    cases ys with
    | nil => rfl
    | cons v ys =>
      exfalso
      rw [List.flatten_nil, List.flatten_cons] at hj
      rcases hys v (by simp) with hv | ⟨cv, hv, _⟩ <;> subst hv <;> simp at hj
  | cons w xs ih =>
    intro ys hxs hys hj
    cases ys with
    | nil =>
      exfalso
      rw [List.flatten_nil, List.flatten_cons] at hj
      rcases hxs w (by simp) with hw | ⟨cw, hw, _⟩ <;> subst hw <;> simp at hj
    | cons v ys =>
      rw [List.flatten_cons, List.flatten_cons] at hj
      have hxs' : ∀ u ∈ xs, u = ['1', '0'] ∨ ∃ ch, u = [ch] ∧ ch ≠ '1' :=
        fun u hu => hxs u (by simp [hu])
      have hys' : ∀ u ∈ ys, u = ['1', '0'] ∨ ∃ ch, u = [ch] ∧ ch ≠ '1' :=
        fun u hu => hys u (by simp [hu])
      rcases hxs w (by simp) with hw | ⟨cw, hw, hcw⟩ <;>
        rcases hys v (by simp) with hv | ⟨cv, hv, hcv⟩ <;> subst hw <;> subst hv
      · simp only [List.cons_append, List.nil_append, List.cons.injEq] at hj
        rw [ih ys hxs' hys' hj.2.2]
      · exfalso
        simp only [List.cons_append, List.nil_append, List.cons.injEq] at hj
        exact hcv hj.1.symm
      · exfalso
        simp only [List.cons_append, List.nil_append, List.cons.injEq] at hj
        exact hcw hj.1
      · simp only [List.cons_append, List.nil_append, List.cons.injEq] at hj
        rw [hj.1, ih ys hxs' hys' hj.2]

lemma join_ranks_inj {xs ys : List String} (hxs : ∀ w ∈ xs, w ∈ ranks)
    (hys : ∀ w ∈ ys, w ∈ ranks) (hj : String.join xs = String.join ys) :
    xs = ys := by
  have hd : (xs.map String.data).flatten = (ys.map String.data).flatten := by
    rw [← data_join, ← data_join, hj]
  have hmap := join_data_inj (xs.map String.data) (ys.map String.data)
    (by
      intro w hw
      rcases List.mem_map.mp hw with ⟨s, hs, rfl⟩
      exact rankData_cases (hxs s hs))
    (by
      intro w hw
      rcases List.mem_map.mp hw with ⟨s, hs, rfl⟩
      exact rankData_cases (hys s hs))
    hd
  exact List.map_injective_iff.mpr (fun a b => String.ext) hmap



lemma sect_ne_AKQJ10 {ra : List String} (hmem : ∀ r ∈ ra, r ∈ ranks)
    (hsort : (ra.map idxVal).Pairwise (· ≤ ·)) :
    String.join ra ≠ "AKQJ10" := by
  intro hj
  have hra : ra = ["A", "K", "Q", "J", "10"] :=
    join_ranks_inj hmem (by decide)
      (hj.trans (rfl : ("AKQJ10" : String) = String.join ["A", "K", "Q", "J", "10"]))
  rw [hra] at hsort
  exact absurd hsort (by decide)

lemma sect_wheel_iff {ra : List String} (hmem : ∀ r ∈ ra, r ∈ ranks) :
    String.join ra = "2345A" ↔ ra = ["2", "3", "4", "5", "A"] := by
  constructor
  · intro hj
    exact join_ranks_inj hmem (by decide)
      (hj.trans (rfl : ("2345A" : String) = String.join ["2", "3", "4", "5", "A"]))
  · intro h
    rw [h]
    rfl

lemma mem_ranks_dropTake {i : Nat} {w : String}
    (hw : w ∈ (ranks.drop i).take 5) : w ∈ ranks :=
  List.mem_of_mem_drop (List.mem_of_mem_take hw)

lemma sect_ref_iff {ra : List String} (hmem : ∀ r ∈ ra, r ∈ ranks) (i : Nat) :
    String.join ra = String.join ((ranks.drop i).take 5) ↔
      ra = (ranks.drop i).take 5 := by
  constructor
  · intro hj
    exact join_ranks_inj hmem (fun w hw => mem_ranks_dropTake hw) hj
  · intro h
    rw [h]

lemma dropTake_iff_consecutive {ra : List String} (hlen : ra.length = 5)
    (hmem : ∀ r ∈ ra, r ∈ ranks) :
    ra = (ranks.drop (idxVal (ra.headD ""))).take 5 ↔
      ∃ i, ra.map idxVal = [i, i+1, i+2, i+3, i+4] := by
  obtain ⟨r0, r1, r2, r3, r4, rfl⟩ := exists_five hlen
  rw [List.headD_cons]
  constructor
  · intro h
    set j := idxVal r0 with hjdef
    refine ⟨j, ?_⟩
    have hj13 : j < 13 := idxVal_lt (hmem r0 (by simp))
    have hlen2 := congrArg List.length h
    have h13 : ranks.length = 13 := rfl
    rw [List.length_take, List.length_drop, h13] at hlen2
    simp only [List.length_cons, List.length_nil] at hlen2
    have hj8 : j ≤ 8 := by omega
    interval_cases j <;> rw [h] <;> rfl
  · rintro ⟨i, hi⟩
    have hc : idxVal r0 = i ∧ idxVal r1 = i+1 ∧ idxVal r2 = i+2 ∧
        idxVal r3 = i+3 ∧ idxVal r4 = i+4 := by
      simpa using hi
    obtain ⟨h0, h1, h2, h3, h4⟩ := hc
    have e0 : r0 = rankOfIdx i := by
      rw [← h0, idx_roundtrip (hmem r0 (by simp))]
    have e1 : r1 = rankOfIdx (i+1) := by
      rw [← h1, idx_roundtrip (hmem r1 (by simp))]
    have e2 : r2 = rankOfIdx (i+2) := by
      rw [← h2, idx_roundtrip (hmem r2 (by simp))]
    have e3 : r3 = rankOfIdx (i+3) := by
      rw [← h3, idx_roundtrip (hmem r3 (by simp))]
    have e4 : r4 = rankOfIdx (i+4) := by
      rw [← h4, idx_roundtrip (hmem r4 (by simp))]
    have hi13 : i + 4 < 13 := by
      rw [← h4]
      exact idxVal_lt (hmem r4 (by simp))
    have hi8 : i ≤ 8 := by omega
    rw [h0, e0, e1, e2, e3, e4]
    interval_cases i <;> rfl

lemma straightOn_iff {ra : List String} (hlen : ra.length = 5)
    (hmem : ∀ r ∈ ra, r ∈ ranks)
    (hsort : (ra.map idxVal).Pairwise (· ≤ ·)) :
    straightOnRanks ra = true ↔
      ((∃ i, ra.map idxVal = [i, i+1, i+2, i+3, i+4])
        ∨ ra = ["2", "3", "4", "5", "A"]) := by
  unfold straightOnRanks
  simp only [Bool.or_eq_true, beq_iff_eq]
  constructor
  · rintro ((hA | hW) | hR)
    · exact absurd hA (sect_ne_AKQJ10 hmem hsort)
    · exact Or.inr ((sect_wheel_iff hmem).mp hW)
    · exact Or.inl ((dropTake_iff_consecutive hlen hmem).mp
        ((sect_ref_iff hmem _).mp hR))
  · rintro (hC | hW)
    · exact Or.inr ((sect_ref_iff hmem _).mpr
        ((dropTake_iff_consecutive hlen hmem).mpr hC))
    · exact Or.inl (Or.inr ((sect_wheel_iff hmem).mpr hW))

lemma straightOn_nodup {ra : List String} (hlen : ra.length = 5)
    (hmem : ∀ r ∈ ra, r ∈ ranks)
    (hsort : (ra.map idxVal).Pairwise (· ≤ ·)) :
    straightOnRanks ra = true → ra.Nodup := by
  intro hs
  rcases (straightOn_iff hlen hmem hsort).mp hs with ⟨i, hi⟩ | hW
  · have hd := (dropTake_iff_consecutive hlen hmem).mpr ⟨i, hi⟩
    rw [hd]
    exact ((List.take_sublist _ _).trans (List.drop_sublist _ _)).nodup ranks_nodup
  · rw [hW]
    decide

end Poker

namespace Poker

lemma length_rankArray5 (hand : List String) (hv : validHand hand) :
    (rankArray hand).length = 5 := by
  rw [length_rankArray hand (fun c hc => (hv.2 c hc).1), hv.1]

lemma idxList_length5 (hand : List String) (hv : validHand hand) :
    (idxList hand).length = 5 := by
  unfold idxList
  rw [List.length_map, length_rankArray5 hand hv]

end Poker

namespace Poker

lemma flatMap_perm {f g : String → List String} (h : ∀ k, (f k).Perm (g k)) :
    ∀ ks : List String, (ks.flatMap f).Perm (ks.flatMap g)
  | [] => List.Perm.refl _
  | k :: ks => by
      rw [List.flatMap_cons, List.flatMap_cons]
      exact (h k).append (flatMap_perm h ks)

lemma sortedHand_perm_congr {h₁ h₂ : List String} (hp : h₁.Perm h₂) :
    (sortedHand h₁).Perm (sortedHand h₂) := by
  unfold sortedHand
  exact flatMap_perm (fun r => hp.filter _) ranks

lemma suitArray_perm_congr {h₁ h₂ : List String} (hp : h₁.Perm h₂) :
    (suitArray h₁).Perm (suitArray h₂) :=
  (sortedHand_perm_congr hp).map getSuit

lemma rankArray_perm_congr {h₁ h₂ : List String} (hp : h₁.Perm h₂) :
    rankArray h₁ = rankArray h₂ := by
  rw [rankArray_eq_flatMap, rankArray_eq_flatMap]
  have hc : ∀ r, (h₁.countP fun c => getRank c == r)
      = h₂.countP fun c => getRank c == r :=
    fun r => hp.countP_eq _
  simp only [hc]

lemma flushOnSuits_mono {sa₁ sa₂ : List String} (hp : sa₁.Perm sa₂)
    (hf : flushOnSuits sa₁ = true) : flushOnSuits sa₂ = true := by
  unfold flushOnSuits at hf ⊢
  rw [List.find?_isSome] at hf ⊢
  obtain ⟨x, hx, hpx⟩ := hf
  refine ⟨x, ?_, ?_⟩
  · unfold mapKeys at hx ⊢
    exact List.mem_dedup.mpr (hp.mem_iff.mp (List.mem_dedup.mp hx))
  · unfold countVal at hpx ⊢
    rwa [← hp.count_eq x]

lemma flushOnSuits_perm_congr {sa₁ sa₂ : List String} (hp : sa₁.Perm sa₂) :
    flushOnSuits sa₁ = flushOnSuits sa₂ := by
  rw [Bool.eq_iff_iff]
  exact ⟨flushOnSuits_mono hp, flushOnSuits_mono hp.symm⟩

lemma dedup_eq_singleton {l : List String} {k : String} (hne : l ≠ [])
    (hall : ∀ x ∈ l, x = k) : l.dedup = [k] := by
  induction l with
  | nil => cases hne rfl
  | cons x xs ih =>
    have hx : x = k := hall x (by simp)
    subst hx
    rcases eq_or_ne xs [] with rfl | hxs
    · rfl
    · have hxs' : ∀ y ∈ xs, y = x := fun y hy => hall y (by simp [hy])
      have hmem : x ∈ xs := by
        obtain ⟨y, hy⟩ := List.exists_mem_of_ne_nil xs hxs
        rw [← hxs' y hy]
        exact hy
      rw [List.dedup_cons_of_mem hmem]
      exact ih hxs hxs'

end Poker

namespace Poker

lemma count_add_count_le (l : List String) {a b : String} (hab : a ≠ b) :
    l.count a + l.count b ≤ l.length := by
  induction l with
  | nil => simp
  | cons x l ih =>
    simp only [List.count_cons, List.length_cons, beq_iff_eq]
    split_ifs with h1 h2
    · exact absurd (h1.symm.trans h2) hab
    · omega
    · omega
    · omega

lemma count3_add_le (l : List String) {a b c : String}
    (hab : a ≠ b) (hac : a ≠ c) (hbc : b ≠ c) :
    l.count a + l.count b + l.count c ≤ l.length := by
  induction l with
  | nil => simp
  | cons x l ih =>
    rw [List.count_cons, List.count_cons, List.count_cons, List.length_cons]
    have hone : (if (x == a) = true then 1 else 0)
        + ((if (x == b) = true then 1 else 0)
          + (if (x == c) = true then 1 else 0)) ≤ 1 := by
      by_cases h1 : x = a <;> by_cases h2 : x = b <;> by_cases h3 : x = c <;>
        simp_all
    omega

lemma exists_key_of_ne_zero {ra : List String} {n : Nat}
    (h : ((mapKeys ra).filter fun k => countVal ra k == n).length ≠ 0) :
    ∃ k, k ∈ ra ∧ ra.count k = n := by
  rw [ne_eq, List.length_eq_zero] at h
  obtain ⟨k, hk⟩ := List.exists_mem_of_ne_nil _ h
  rw [List.mem_filter] at hk
  refine ⟨k, ?_, ?_⟩
  · exact List.mem_dedup.mp hk.1
  · simpa [countVal] using hk.2

lemma nodup_two_le {l : List String} (hnd : l.Nodup) (h2 : 2 ≤ l.length) :
    ∃ a b, a ≠ b ∧ a ∈ l ∧ b ∈ l := by
  cases l with
  | nil => simp at h2
  | cons a t =>
    cases t with
    | nil => simp at h2
    | cons b t2 =>
      refine ⟨a, b, ?_, by simp, by simp⟩
      have hn := List.nodup_cons.mp hnd
      intro heq
      subst heq
      exact hn.1 (List.mem_cons_self _ _)

lemma exists_two_keys {ra : List String} {n : Nat}
    (h : 2 ≤ ((mapKeys ra).filter fun k => countVal ra k == n).length) :
    ∃ k₁ k₂, k₁ ≠ k₂ ∧ ra.count k₁ = n ∧ ra.count k₂ = n := by
  obtain ⟨k₁, k₂, hne, h1, h2⟩ :=
    nodup_two_le ((List.nodup_dedup ra).filter _) h
  rw [List.mem_filter] at h1 h2
  exact ⟨k₁, k₂, hne, by simpa [countVal] using h1.2,
    by simpa [countVal] using h2.2⟩

end Poker

namespace Poker

/-- C1: `getPokerHandRank` evaluates the nine category predicates in strict
precedence order StraightFlush, FourOfKind, FullHouse, Flush, Straight,
ThreeOfKind, TwoPairs, OnePair, HighCard, returning the first category whose
predicate holds; in particular a hand that is simultaneously a straight and
a flush is classified StraightFlush. -/
theorem classify_first_match (hand : List String) :
    getPokerHandRank hand = firstMatch (categoryChecks hand) ∧
    (isStraight hand = true → isFlush hand = true →
      getPokerHandRank hand = PokerRank.StraightFlush) := by
  constructor
  · rfl
  · intro hs hf
    unfold getPokerHandRank
    rw [hs, hf]
    rfl

/-- C1 witness: the precedence result evaluated on a straight flush. -/
theorem classify_first_match_witness :
    getPokerHandRank ["4♥", "5♥", "6♥", "7♥", "8♥"] = PokerRank.StraightFlush :=
  (classify_first_match ["4♥", "5♥", "6♥", "7♥", "8♥"]).2 (by decide) (by decide)

/-- C2: for a structurally valid 5-card hand the straight test succeeds iff
the five sorted canonical rank indices are consecutive ascending integers,
or the sorted rank sequence is exactly 2-3-4-5-A (the wheel); it fails on
every other rank multiset. -/
theorem straight_characterization (hand : List String) (hv : validHand hand) :
    isStraight hand = true ↔
      ((∃ i, idxList hand = [i, i+1, i+2, i+3, i+4])
        ∨ rankArray hand = ["2", "3", "4", "5", "A"]) := by
  exact straightOn_iff (length_rankArray5 hand hv)
    (fun r hr => mem_rankArray_ranks hr) (idxList_pairwise hand)

/-- C2 witness: the characterization applied to the concrete straight
2-3-4-5-6. -/
theorem straight_characterization_witness :
    validHand ["2♠", "3♥", "4♥", "5♥", "6♥"] ∧
      (isStraight ["2♠", "3♥", "4♥", "5♥", "6♥"] = true ↔
        ((∃ i, idxList ["2♠", "3♥", "4♥", "5♥", "6♥"] = [i, i+1, i+2, i+3, i+4])
          ∨ rankArray ["2♠", "3♥", "4♥", "5♥", "6♥"] = ["2", "3", "4", "5", "A"])) :=
  ⟨by decide, straight_characterization ["2♠", "3♥", "4♥", "5♥", "6♥"] (by decide)⟩

/-- C3: a hand whose sorted rank sequence is the wheel 2-3-4-5-A classifies
as StraightFlush when flush, as Straight otherwise, and never as HighCard;
concretely the suited wheel is a StraightFlush and the offsuit wheel a
Straight. -/
theorem wheel_classification (hand : List String)
    (hw : rankArray hand = ["2", "3", "4", "5", "A"]) :
    (isFlush hand = true → getPokerHandRank hand = PokerRank.StraightFlush) ∧
    (isFlush hand = false → getPokerHandRank hand = PokerRank.Straight) ∧
    getPokerHandRank hand ≠ PokerRank.HighCard ∧
    getPokerHandRank ["A♠", "4♠", "3♠", "5♠", "2♠"] = PokerRank.StraightFlush ∧
    getPokerHandRank ["2♥", "4♦", "5♥", "A♦", "3♠"] = PokerRank.Straight := by
  have hs : isStraight hand = true := by
    unfold isStraight
    rw [hw]
    decide
  have h4 : isFourOfKind hand = 0 := by
    unfold isFourOfKind
    rw [hw]
    decide
  have h3 : isThreeOfKind hand = 0 := by
    unfold isThreeOfKind
    rw [hw]
    decide
  have hp : isPairs hand = 0 := by
    unfold isPairs
    rw [hw]
    decide
  have hT : isFlush hand = true → getPokerHandRank hand = PokerRank.StraightFlush := by
    intro hf
    unfold getPokerHandRank
    rw [hs, hf]
    rfl
  have hF : isFlush hand = false → getPokerHandRank hand = PokerRank.Straight := by
    intro hf
    unfold getPokerHandRank
    rw [hs, hf, h4, h3, hp]
    rfl
  refine ⟨hT, hF, ?_, by decide, by decide⟩
  cases hfl : isFlush hand
  · rw [hF hfl]
    decide
  · rw [hT hfl]
    decide

/-- C3 witness: the wheel facts applied to the concrete offsuit wheel. -/
theorem wheel_classification_witness :
    (isFlush ["2♥", "4♦", "5♥", "A♦", "3♠"] = true →
      getPokerHandRank ["2♥", "4♦", "5♥", "A♦", "3♠"] = PokerRank.StraightFlush) ∧
    (isFlush ["2♥", "4♦", "5♥", "A♦", "3♠"] = false →
      getPokerHandRank ["2♥", "4♦", "5♥", "A♦", "3♠"] = PokerRank.Straight) ∧
    getPokerHandRank ["2♥", "4♦", "5♥", "A♦", "3♠"] ≠ PokerRank.HighCard ∧
    getPokerHandRank ["A♠", "4♠", "3♠", "5♠", "2♠"] = PokerRank.StraightFlush ∧
    getPokerHandRank ["2♥", "4♦", "5♥", "A♦", "3♠"] = PokerRank.Straight :=
  wheel_classification ["2♥", "4♦", "5♥", "A♦", "3♠"] (by decide)

/-- C7: on a structurally valid 5-card hand the classifier is total: it
returns exactly one of the nine `PokerRank` values, an integer between 0 and
8, with no failure path. -/
theorem classify_total (hand : List String) (_hv : validHand hand) :
    getPokerHandRank hand ∈
      [PokerRank.HighCard, PokerRank.OnePair, PokerRank.TwoPairs,
       PokerRank.ThreeOfKind, PokerRank.Straight, PokerRank.Flush,
       PokerRank.FullHouse, PokerRank.FourOfKind, PokerRank.StraightFlush] ∧
    getPokerHandRank hand ≤ 8 := by
  unfold getPokerHandRank
  split_ifs <;> exact ⟨by decide, by decide⟩

/-- C7 witness: totality evaluated on a concrete valid hand. -/
theorem classify_total_witness :
    getPokerHandRank ["A♥", "K♥", "Q♥", "2♦", "3♠"] ∈
      [PokerRank.HighCard, PokerRank.OnePair, PokerRank.TwoPairs,
       PokerRank.ThreeOfKind, PokerRank.Straight, PokerRank.Flush,
       PokerRank.FullHouse, PokerRank.FourOfKind, PokerRank.StraightFlush] ∧
    getPokerHandRank ["A♥", "K♥", "Q♥", "2♦", "3♠"] ≤ 8 :=
  classify_total ["A♥", "K♥", "Q♥", "2♦", "3♠"] (by decide)

/-- C10: on structurally valid hands the `'AKQJ10'` disjunct of the straight
test is dead code: the sorted rank concatenation never equals `"AKQJ10"`,
and the variant of the test with the disjunct removed agrees with the
original on every such hand. -/
theorem straight_trimmed_equiv (hand : List String) (_hv : validHand hand) :
    String.join (rankArray hand) ≠ "AKQJ10" ∧
    isStraightTrimmed hand = isStraight hand := by
  have h2 : String.join (rankArray hand) ≠ "AKQJ10" :=
    sect_ne_AKQJ10 (fun r hr => mem_rankArray_ranks hr) (idxList_pairwise hand)
  refine ⟨h2, ?_⟩
  have hb : (String.join (rankArray hand) == "AKQJ10") = false := by
    simpa using h2
  unfold isStraight isStraightTrimmed
  simp only [straightOnRanks, straightOnRanksTrimmed, hb, Bool.false_or]

/-- C10 witness: the dead-disjunct equivalence on the concrete high straight
10-J-Q-K-A. -/
theorem straight_trimmed_equiv_witness :
    validHand ["10♠", "J♥", "Q♥", "K♥", "A♥"] ∧
      (String.join (rankArray ["10♠", "J♥", "Q♥", "K♥", "A♥"]) ≠ "AKQJ10" ∧
        isStraightTrimmed ["10♠", "J♥", "Q♥", "K♥", "A♥"]
          = isStraight ["10♠", "J♥", "Q♥", "K♥", "A♥"]) :=
  ⟨by decide, straight_trimmed_equiv ["10♠", "J♥", "Q♥", "K♥", "A♥"] (by decide)⟩

end Poker

namespace Poker

lemma mem_suitArray {hand : List String}
    (hva : ∀ c ∈ hand, getRank c ∈ ranks) {x : String} :
    x ∈ suitArray hand ↔ ∃ c ∈ hand, getSuit c = x := by
  unfold suitArray
  rw [List.mem_map]
  constructor
  · rintro ⟨c, hc, rfl⟩
    exact ⟨c, (sortedHand_perm hand hva).mem_iff.mp hc, rfl⟩
  · rintro ⟨c, hc, rfl⟩
    exact ⟨c, (sortedHand_perm hand hva).mem_iff.mpr hc, rfl⟩

/-- C6: the classifier is order-independent: permuting the five card tokens
never changes the returned category. -/
theorem classify_perm_invariant (h₁ h₂ : List String) (hp : h₁.Perm h₂) :
    getPokerHandRank h₁ = getPokerHandRank h₂ := by
  have hra := rankArray_perm_congr hp
  have hfl : isFlush h₁ = isFlush h₂ :=
    flushOnSuits_perm_congr (suitArray_perm_congr hp)
  unfold isFlush at hfl
  unfold getPokerHandRank isStraight isFourOfKind isThreeOfKind isPairs isFlush
  rw [hra, hfl]

/-- C6 witness: order-independence on a concrete permuted pair. -/
theorem classify_perm_invariant_witness :
    getPokerHandRank ["A♥", "K♥", "Q♥", "2♦", "3♠"]
      = getPokerHandRank ["3♠", "2♦", "Q♥", "K♥", "A♥"] :=
  classify_perm_invariant ["A♥", "K♥", "Q♥", "2♦", "3♠"]
    ["3♠", "2♦", "Q♥", "K♥", "A♥"] (by decide)

/-- C4: on a structurally valid 5-card hand the flush test succeeds iff the
suit-multiplicity map has exactly one key, of count 5, iff all five cards
share the same suit. -/
theorem flush_characterization (hand : List String) (hv : validHand hand) :
    (isFlush hand = true ↔
      ∃ s, mapKeys (suitArray hand) = [s] ∧ countVal (suitArray hand) s = 5) ∧
    (isFlush hand = true ↔ ∃ s, ∀ c ∈ hand, getSuit c = s) := by
  have hva : ∀ c ∈ hand, getRank c ∈ ranks := fun c hc => (hv.2 c hc).1
  have hlen : (suitArray hand).length = 5 := by
    rw [length_suitArray hand hva, hv.1]
  have hne : suitArray hand ≠ [] := by
    intro h0
    rw [h0] at hlen
    simp at hlen
  have hiff : isFlush hand = true ↔
      ∃ x ∈ mapKeys (suitArray hand),
        (countVal (suitArray hand) x == 5) = true := by
    unfold isFlush flushOnSuits
    exact List.find?_isSome
  have hiff2 : isFlush hand = true ↔ ∃ s, ∀ x ∈ suitArray hand, x = s := by
    rw [hiff]
    constructor
    · rintro ⟨s, hs, hc⟩
      have hc' : (suitArray hand).count s = 5 := by simpa [countVal] using hc
      refine ⟨s, fun x hx => ?_⟩
      exact (List.count_eq_length.mp (by rw [hc', hlen]) x hx).symm
    · rintro ⟨s, hall⟩
      obtain ⟨y, hy⟩ := List.exists_mem_of_ne_nil _ hne
      have hys : s ∈ suitArray hand := (hall y hy) ▸ hy
      refine ⟨s, List.mem_dedup.mpr hys, ?_⟩
      have hcl : (suitArray hand).count s = (suitArray hand).length :=
        List.count_eq_length.mpr (fun b hb => (hall b hb).symm)
      simp [countVal, hcl, hlen]
  constructor
  · rw [hiff]
    constructor
    · rintro ⟨s, hs, hc⟩
      have hc' : (suitArray hand).count s = 5 := by simpa [countVal] using hc
      have hall : ∀ x ∈ suitArray hand, x = s := fun x hx =>
        (List.count_eq_length.mp (by rw [hc', hlen]) x hx).symm
      exact ⟨s, dedup_eq_singleton hne hall, hc'⟩
    · rintro ⟨s, hk, hc⟩
      refine ⟨s, ?_, by simp [hc]⟩
      unfold mapKeys at hk ⊢
      rw [hk]
      simp
  · rw [hiff2]
    constructor
    · rintro ⟨s, hall⟩
      exact ⟨s, fun c hc => hall (getSuit c) ((mem_suitArray hva).mpr ⟨c, hc, rfl⟩)⟩
    · rintro ⟨s, hall⟩
      refine ⟨s, fun x hx => ?_⟩
      obtain ⟨c, hc, rfl⟩ := (mem_suitArray hva).mp hx
      exact hall c hc

/-- C4 witness: the flush characterization on a concrete flush. -/
theorem flush_characterization_witness :
    validHand ["4♣", "5♣", "6♣", "7♣", "Q♣"] ∧
      ((isFlush ["4♣", "5♣", "6♣", "7♣", "Q♣"] = true ↔
        ∃ s, mapKeys (suitArray ["4♣", "5♣", "6♣", "7♣", "Q♣"]) = [s] ∧
          countVal (suitArray ["4♣", "5♣", "6♣", "7♣", "Q♣"]) s = 5) ∧
      (isFlush ["4♣", "5♣", "6♣", "7♣", "Q♣"] = true ↔
        ∃ s, ∀ c ∈ ["4♣", "5♣", "6♣", "7♣", "Q♣"], getSuit c = s)) :=
  ⟨by decide, flush_characterization ["4♣", "5♣", "6♣", "7♣", "Q♣"] (by decide)⟩

end Poker

namespace Poker

lemma four_zero_of_three (hand : List String) (hv : validHand hand)
    (h3 : isThreeOfKind hand ≠ 0) : isFourOfKind hand = 0 := by
  by_contra h4
  unfold isThreeOfKind threeOnRanks at h3
  unfold isFourOfKind fourOnRanks at h4
  obtain ⟨r, _, hr⟩ := exists_key_of_ne_zero h3
  obtain ⟨k, _, hk⟩ := exists_key_of_ne_zero h4
  have hne : r ≠ k := by
    intro heq
    rw [heq, hk] at hr
    cases hr
  have := count_add_count_le (rankArray hand) hne
  rw [hr, hk, length_rankArray5 hand hv] at this
  omega

lemma straight_false_of_three (hand : List String) (hv : validHand hand)
    (h3 : isThreeOfKind hand ≠ 0) : isStraight hand = false := by
  cases hs : isStraight hand
  · rfl
  · exfalso
    have hnd : (rankArray hand).Nodup :=
      straightOn_nodup (length_rankArray5 hand hv)
        (fun r hr => mem_rankArray_ranks hr) (idxList_pairwise hand) hs
    rw [List.nodup_iff_count_le_one] at hnd
    unfold isThreeOfKind threeOnRanks at h3
    obtain ⟨r, _, hr⟩ := exists_key_of_ne_zero h3
    have := hnd r
    rw [hr] at this
    omega

lemma pairs_le_one_of_three (hand : List String) (hv : validHand hand)
    (h3 : isThreeOfKind hand ≠ 0) : isPairs hand ≤ 1 := by
  by_contra hgt
  have h2 : 2 ≤ isPairs hand := by omega
  unfold isThreeOfKind threeOnRanks at h3
  unfold isPairs pairsOnRanks at h2
  obtain ⟨r, _, hr⟩ := exists_key_of_ne_zero h3
  obtain ⟨p₁, p₂, hpne, hp₁, hp₂⟩ := exists_two_keys h2
  have hrp₁ : r ≠ p₁ := by
    intro heq
    rw [heq, hp₁] at hr
    cases hr
  have hrp₂ : r ≠ p₂ := by
    intro heq
    rw [heq, hp₂] at hr
    cases hr
  have := count3_add_le (rankArray hand) hrp₁ hrp₂ hpne
  rw [hr, hp₁, hp₂, length_rankArray5 hand hv] at this
  omega

/-- C5: a structurally valid hand whose rank map has exactly one rank of
multiplicity 3 and exactly one rank of multiplicity 2 classifies as
FullHouse and not ThreeOfKind; and ThreeOfKind is returned only when a rank
of multiplicity 3 exists and no rank of multiplicity 2 does. -/
theorem fullhouse_precedence (hand : List String) (hv : validHand hand)
    (h3 : isThreeOfKind hand = 1) (h2 : isPairs hand = 1) :
    (getPokerHandRank hand = PokerRank.FullHouse ∧
      getPokerHandRank hand ≠ PokerRank.ThreeOfKind) ∧
    ∀ hand2, validHand hand2 →
      getPokerHandRank hand2 = PokerRank.ThreeOfKind →
        isThreeOfKind hand2 ≠ 0 ∧ isPairs hand2 = 0 := by
  have h3ne : isThreeOfKind hand ≠ 0 := by
    rw [h3]
    decide
  have h4 := four_zero_of_three hand hv h3ne
  have hsf := straight_false_of_three hand hv h3ne
  have hfh : getPokerHandRank hand = PokerRank.FullHouse := by
    unfold getPokerHandRank
    rw [hsf, h4, h3, h2]
    rfl
  refine ⟨⟨hfh, by rw [hfh]; decide⟩, ?_⟩
  intro hand2 hv2 hres
  unfold getPokerHandRank at hres
  split_ifs at hres with c1 c2 c3 c4 c5 c6 c7 c8 <;>
    try exact absurd hres (by decide)
  have ht : isThreeOfKind hand2 ≠ 0 := by simpa using c6
  have hple := pairs_le_one_of_three hand2 hv2 ht
  have hpne : isPairs hand2 ≠ 1 := by
    intro hp1
    exact c3 (by simp [hp1, bne_iff_ne, ht])
  exact ⟨ht, by omega⟩

/-- C5 witness: the full-house facts applied to the concrete hand
4-4-5-5-5. -/
theorem fullhouse_precedence_witness :
    ((getPokerHandRank ["4♣", "4♦", "5♦", "5♠", "5♥"] = PokerRank.FullHouse ∧
      getPokerHandRank ["4♣", "4♦", "5♦", "5♠", "5♥"] ≠ PokerRank.ThreeOfKind) ∧
    ∀ hand2, validHand hand2 →
      getPokerHandRank hand2 = PokerRank.ThreeOfKind →
        isThreeOfKind hand2 ≠ 0 ∧ isPairs hand2 = 0) :=
  fullhouse_precedence ["4♣", "4♦", "5♦", "5♠", "5♥"]
    (by decide) (by decide) (by decide)

end Poker

namespace Poker

lemma parseCard_malformed {t : String}
    (hbad : getRank t ∉ ranks ∨ getSuit t ∉ suits) :
    parseCard t = Except.error CardError.MalformedCardError := by
  unfold parseCard
  rw [if_neg]
  rintro ⟨hr, hs⟩
  rcases hbad with hb | hb
  · exact hb hr
  · exact hb hs

/-- C8: `parseHand` on a token sequence containing a token whose rank
substring is not one of the 13 canonical ranks or whose suit substring is
not one of the 4 canonical suits fails with `MalformedCardError` instead of
producing a hand. -/
theorem parseHand_malformed (toks : List String)
    (h : ∃ t ∈ toks, getRank t ∉ ranks ∨ getSuit t ∉ suits) :
    parseHand toks = Except.error CardError.MalformedCardError := by
  unfold parseHand
  induction toks with
  | nil => simp at h
  | cons t ts ih =>
    rw [List.mapM_cons]
    rcases h with ⟨u, hu, hbad⟩
    rcases List.mem_cons.mp hu with rfl | hu2
    · rw [parseCard_malformed hbad]
      rfl
    · cases hc : parseCard t with
      | error e =>
        cases e
        rfl
      | ok v =>
        rw [ih ⟨u, hu2, hbad⟩]
        rfl

/-- C8 witness: parsing fails on the malformed token `"1♠"`. -/
theorem parseHand_malformed_witness :
    (∃ t ∈ ["1♠", "A♠", "K♠", "Q♠", "J♠"],
      getRank t ∉ ranks ∨ getSuit t ∉ suits) ∧
    parseHand ["1♠", "A♠", "K♠", "Q♠", "J♠"]
      = Except.error CardError.MalformedCardError :=
  ⟨by decide, parseHand_malformed ["1♠", "A♠", "K♠", "Q♠", "J♠"] (by decide)⟩

lemma keys_facts (arr : List String) (h5 : arr.length = 5) :
    1 ≤ (mapKeys arr).length ∧ (mapKeys arr).length ≤ 5 ∧
      ((mapKeys arr).map (countVal arr)).sum = 5 := by
  have hne : arr ≠ [] := by
    intro h0
    rw [h0] at h5
    simp at h5
  refine ⟨?_, ?_, ?_⟩
  · obtain ⟨x, hx⟩ := List.exists_mem_of_ne_nil _ hne
    have hxd : x ∈ mapKeys arr := List.mem_dedup.mpr hx
    exact List.length_pos.mpr (List.ne_nil_of_mem hxd)
  · calc (mapKeys arr).length ≤ arr.length := (List.dedup_sublist arr).length_le
      _ = 5 := h5
  · rw [← h5]
    exact List.sum_map_count_dedup_eq_length arr

lemma suit_keys_le (hand : List String) (hv : validHand hand) :
    (mapKeys (suitArray hand)).length ≤ 4 := by
  have hva : ∀ c ∈ hand, getRank c ∈ ranks := fun c hc => (hv.2 c hc).1
  have hfin : (mapKeys (suitArray hand)).toFinset ⊆ suits.toFinset := by
    intro x hx
    rw [List.mem_toFinset] at hx ⊢
    have hx2 := List.mem_dedup.mp hx
    obtain ⟨c, hc, rfl⟩ := (mem_suitArray hva).mp hx2
    exact (hv.2 c hc).2
  have hcard := Finset.card_le_card hfin
  have hnd1 : (mapKeys (suitArray hand)).Nodup := List.nodup_dedup _
  have hnd2 : suits.Nodup := by decide
  rw [List.toFinset_card_of_nodup hnd1,
    List.toFinset_card_of_nodup hnd2] at hcard
  exact hcard

/-- C9 counterexample: on the structurally valid no-pair hand 2-3-4-5-7 the
rank-multiplicity map has five keys, contradicting the claimed upper bound
of four. -/
theorem rank_map_five_keys :
    validHand ["2♠", "3♠", "4♠", "5♠", "7♠"] ∧
    (mapKeys (rankArray ["2♠", "3♠", "4♠", "5♠", "7♠"])).length = 5 ∧
    ¬((mapKeys (rankArray ["2♠", "3♠", "4♠", "5♠", "7♠"])).length ≤ 4) := by
  refine ⟨by decide, by decide, by decide⟩

/-- C9 (amended): on a structurally valid 5-card hand the rank-multiplicity
map has between 1 and 5 keys (five distinct ranks give five keys, so the
specification's upper bound of 4 is off by one) with counts summing to 5,
and the suit-multiplicity map has between 1 and 4 keys with counts summing
to 5. -/
theorem maps_invariant (hand : List String) (hv : validHand hand) :
    (1 ≤ (mapKeys (rankArray hand)).length ∧
      (mapKeys (rankArray hand)).length ≤ 5 ∧
      ((mapKeys (rankArray hand)).map (countVal (rankArray hand))).sum = 5) ∧
    (1 ≤ (mapKeys (suitArray hand)).length ∧
      (mapKeys (suitArray hand)).length ≤ 4 ∧
      ((mapKeys (suitArray hand)).map (countVal (suitArray hand))).sum = 5) := by
  have hva : ∀ c ∈ hand, getRank c ∈ ranks := fun c hc => (hv.2 c hc).1
  have hr := keys_facts (rankArray hand) (length_rankArray5 hand hv)
  have hs := keys_facts (suitArray hand)
    (by rw [length_suitArray hand hva, hv.1])
  exact ⟨hr, hs.1, suit_keys_le hand hv, hs.2.2⟩

/-- C9 witness: the amended invariants on a concrete full house. -/
theorem maps_invariant_witness :
    ((1 ≤ (mapKeys (rankArray ["4♣", "4♦", "5♦", "5♠", "5♥"])).length ∧
      (mapKeys (rankArray ["4♣", "4♦", "5♦", "5♠", "5♥"])).length ≤ 5 ∧
      ((mapKeys (rankArray ["4♣", "4♦", "5♦", "5♠", "5♥"])).map
        (countVal (rankArray ["4♣", "4♦", "5♦", "5♠", "5♥"]))).sum = 5) ∧
    (1 ≤ (mapKeys (suitArray ["4♣", "4♦", "5♦", "5♠", "5♥"])).length ∧
      (mapKeys (suitArray ["4♣", "4♦", "5♦", "5♠", "5♥"])).length ≤ 4 ∧
      ((mapKeys (suitArray ["4♣", "4♦", "5♦", "5♠", "5♥"])).map
        (countVal (suitArray ["4♣", "4♦", "5♦", "5♠", "5♥"]))).sum = 5)) :=
  maps_invariant ["4♣", "4♦", "5♦", "5♠", "5♥"] (by decide)

end Poker
